import Mathlib

/-!
Verification of the SOLV-flashcards-maker backend against its specification.

The Python sources are shallowly embedded: pure functions become Lean
functions on `List Char` / `String` / `ℚ`; the filesystem cache becomes
explicit state passing over the set of existing paths; fallible code
returns `Except`.  Python floats are modelled as rationals; external
collaborators (the wordfreq Zipf oracle, the per-voice
provider synthesis outcome) are parameters of the functions that consume them.
-/

/-- ASCII apostrophe, written via its code point. -/
def apos : Char := Char.ofNat 39

/-! ## backend/sentence_analyzer.py -/

/-- Character class of the tokenizer regex
`[A-Za-zÀ-ÖØ-öø-ÿ]` from `WORD_RE` in sentence_analyzer.py. -/
def isFrLetter (c : Char) : Bool :=
  let n := c.toNat
  (65 ≤ n && n ≤ 90) || (97 ≤ n && n ≤ 122) ||
  (0xC0 ≤ n && n ≤ 0xD6) || (0xD8 ≤ n && n ≤ 0xF6) ||
  (0xF8 ≤ n && n ≤ 0xFF)

/-- One regex match of `WORD_RE` starting at the head of `l` (head is assumed
to be a letter): the maximal letter run, then greedily one
apostrophe-joined letter run if present.  Returns (match, rest). -/
def grab (l : List Char) : List Char × List Char :=
  match l.dropWhile isFrLetter with
  | c :: d :: ds =>
    if c == apos && isFrLetter d then
      (l.takeWhile isFrLetter ++ c :: (d :: ds).takeWhile isFrLetter,
       (d :: ds).dropWhile isFrLetter)
    else (l.takeWhile isFrLetter, l.dropWhile isFrLetter)
  | _ => (l.takeWhile isFrLetter, l.dropWhile isFrLetter)

theorem grab_snd_length {c : Char} (cs : List Char) (h : isFrLetter c = true) :
    ((grab (c :: cs)).2).length < (c :: cs).length := by
  have hsub : (List.dropWhile isFrLetter (c :: cs)).length ≤ cs.length := by
    rw [List.dropWhile_cons_of_pos h]
    exact (List.dropWhile_sublist _).length_le
  unfold grab
  cases hrest : List.dropWhile isFrLetter (c :: cs) with
  | nil =>
    rw [hrest] at hsub
    simp
  | cons a t =>
    rw [hrest] at hsub
    cases t with
    | nil =>
      simp at hsub ⊢
      omega
    | cons d ds =>
      have h2 : (List.dropWhile isFrLetter (d :: ds)).length ≤ (d :: ds).length :=
        (List.dropWhile_sublist _).length_le
      dsimp only
      by_cases had : (a == apos && isFrLetter d) = true
      · rw [if_pos had]
        simp at hsub h2 ⊢
        omega
      · rw [if_neg had]
        simp at hsub ⊢
        omega

/-- `fr_tokens` (sentence_analyzer.py): all matches of `WORD_RE` over the
character list, left to right, skipping non-letters. -/
def frTokensAux : List Char → List (List Char)
  | [] => []
  | c :: cs =>
    if h : isFrLetter c = true then
      (grab (c :: cs)).1 :: frTokensAux (grab (c :: cs)).2
    else frTokensAux cs
termination_by l => l.length
decreasing_by
  · exact grab_snd_length cs h
  · simp

/-- `fr_tokens(text)`: the token strings, in order. -/
def fr_tokens (text : String) : List String :=
  (frTokensAux text.data).map fun l => String.mk l

/-- `band_from_zipf` (sentence_analyzer.py): the sequential threshold tests.
The Python float argument is modelled as a rational. -/
def band_from_zipf (z : ℚ) : String :=
  if z ≥ 5.5 then "A1 (ultra common)"
  else if z ≥ 4.5 then "A2 (very common)"
  else if z ≥ 3.5 then "B1 (common)"
  else if z ≥ 2.5 then "B2–C1 (uncommon)"
  else "C1–C2 (rare)"

/-- Python `s.lower()`, lowering ASCII letters characterwise (Python also
lowers accented capitals, which does not affect any claim here). -/
def pyLower (s : String) : String := String.mk (s.data.map Char.toLower)

/-- `normalize_token`: `t.lower()`. -/
def normalize_token (t : String) : String := pyLower t

/-- Python `round(x, 3)`.  Modelled with the Mathlib `round` (half away from
zero on positives); Python rounds ties to even, but no claim depends on a
tie, and all bounds proved below hold for either tie rule. -/
def round3 (q : ℚ) : ℚ := (round (1000 * q) : ℤ) / 1000

/-- `statistics.mean` on a nonempty list of rationals. -/
def listMean (l : List ℚ) : ℚ := l.sum / l.length

/-- `statistics.median`: sort ascending, middle element (odd length) or the
average of the two middle elements (even length). -/
def listMedian (l : List ℚ) : ℚ :=
  let s := l.insertionSort (· ≤ ·)
  let n := s.length
  if n % 2 = 1 then s.getD (n / 2) 0
  else (s.getD (n / 2 - 1) 0 + s.getD (n / 2) 0) / 2

/-- One per-token row built by `analyze_sentence`. -/
structure Row where
  token : String
  norm : String
  zipf : ℚ
  band : String
  is_rare : Bool
  is_known : Bool
deriving DecidableEq, Repr

/-- The rows loop of `analyze_sentence` (lines 48–60): `zf` is the external
`zipf_frequency (·, "fr")` oracle, `kw` the already-normalized known set. -/
def analyzeRows (zf : String → ℚ) (kw : List String) (rare_threshold : ℚ)
    (sentence : String) : List Row :=
  (fr_tokens sentence).map fun t =>
    let nt := normalize_token t
    let z := zf nt
    { token := t
      norm := nt
      zipf := round3 z
      band := band_from_zipf z
      is_rare := decide (z < rare_threshold)
      is_known := decide (nt ∈ kw) }

/-- The ordering used by `sorted(candidates, key=lambda r: r["zipf"])`. -/
def zipfLE (a b : Row) : Prop := a.zipf ≤ b.zipf

instance : DecidableRel zipfLE := fun a b => inferInstanceAs (Decidable (a.zipf ≤ b.zipf))

instance : IsTotal Row zipfLE := ⟨fun a b => le_total a.zipf b.zipf⟩

instance : IsTrans Row zipfLE := ⟨fun _ _ _ => le_trans⟩

/-- Flashcard-candidate selection of `analyze_sentence` (lines 72–78):
filter unknown rows in the useful band and sort ascending by zipf
(the Python `sorted` is a stable ascending sort, as is `insertionSort`). -/
def candidateRows (zf : String → ℚ) (kw : List String)
    (rare_threshold useful_min useful_max : ℚ) (sentence : String) : List Row :=
  ((analyzeRows zf kw rare_threshold sentence).filter fun r =>
    !r.is_known && decide (useful_min ≤ r.zipf) && decide (r.zipf ≤ useful_max)).insertionSort
    zipfLE

/-- Sentence-level statistics record of `analyze_sentence`. -/
structure Stats where
  num_tokens : ℕ
  mean_zipf : ℚ
  median_zipf : ℚ
  share_rare_words : ℚ
  known_word_coverage : ℚ
deriving DecidableEq, Repr

/-- Candidate record exposed in the summary. -/
structure CandidateOut where
  token : String
  zipf : ℚ
  band : String
deriving DecidableEq, Repr

/-- The full summary returned by `analyze_sentence`. -/
structure Summary where
  tokens : List Row
  stats : Stats
  flashcard_candidates : List CandidateOut
  hardest_word : Option Row
  easiest_word : Option Row
deriving DecidableEq, Repr

/-- `analyze_sentence` (sentence_analyzer.py lines 39–96).  `known_words`
is a list standing for the Python set (membership is all that is used);
`zf` is the external frequency oracle. -/
def analyze_sentence (zf : String → ℚ) (sentence : String)
    (known_words : List String) (rare_threshold : ℚ := 3)
    (useful_min : ℚ := 3) (useful_max : ℚ := 4.8) : Summary :=
  let kw := known_words.map normalize_token
  let rows := analyzeRows zf kw rare_threshold sentence
  let zipfs := match rows.map (·.zipf) with
    | [] => [(0 : ℚ)]
    | l => l
  let candidates := candidateRows zf kw rare_threshold useful_min useful_max sentence
  { tokens := rows
    stats :=
      { num_tokens := rows.length
        mean_zipf := round3 (listMean zipfs)
        median_zipf := round3 (listMedian zipfs)
        share_rare_words := round3 ((rows.countP (·.is_rare) : ℚ) / max rows.length 1)
        known_word_coverage := round3 ((rows.countP (·.is_known) : ℚ) / max rows.length 1) }
    flashcard_candidates := candidates.map fun c => ⟨c.token, c.zipf, c.band⟩
    hardest_word := rows.argmin (·.zipf)
    easiest_word := rows.argmax (·.zipf) }

/-- C2: the band classifier is a total deterministic function of the score,
choosing by the ordered threshold partition 5.5 / 4.5 / 3.5 / 2.5, with
everything below 2.5 — including 0 — classified as the rare band. -/
theorem c2_band_partition (z : ℚ) :
    (5.5 ≤ z → band_from_zipf z = "A1 (ultra common)") ∧
    (4.5 ≤ z ∧ z < 5.5 → band_from_zipf z = "A2 (very common)") ∧
    (3.5 ≤ z ∧ z < 4.5 → band_from_zipf z = "B1 (common)") ∧
    (2.5 ≤ z ∧ z < 3.5 → band_from_zipf z = "B2–C1 (uncommon)") ∧
    (z < 2.5 → band_from_zipf z = "C1–C2 (rare)") ∧
    band_from_zipf 0 = "C1–C2 (rare)" := by
  have h0 : band_from_zipf 0 = "C1–C2 (rare)" := by
    unfold band_from_zipf
    rw [if_neg (by norm_num), if_neg (by norm_num), if_neg (by norm_num),
      if_neg (by norm_num)]
  refine ⟨fun h => ?_, fun h => ?_, fun h => ?_, fun h => ?_, fun h => ?_, h0⟩
  · unfold band_from_zipf
    rw [if_pos h]
  · unfold band_from_zipf
    rw [if_neg (not_le.mpr h.2), if_pos h.1]
  · unfold band_from_zipf
    rw [if_neg (not_le.mpr (h.2.trans (by norm_num))), if_neg (not_le.mpr h.2), if_pos h.1]
  · unfold band_from_zipf
    rw [if_neg (not_le.mpr (h.2.trans (by norm_num))),
      if_neg (not_le.mpr (h.2.trans (by norm_num))), if_neg (not_le.mpr h.2), if_pos h.1]
  · unfold band_from_zipf
    rw [if_neg (not_le.mpr (h.trans (by norm_num))),
      if_neg (not_le.mpr (h.trans (by norm_num))),
      if_neg (not_le.mpr (h.trans (by norm_num))), if_neg (not_le.mpr h)]

/-- Witness for `c2_band_partition` at concrete scores. -/
theorem c2_witness :
    ((5.5 : ℚ) ≤ 6 ∧ band_from_zipf 6 = "A1 (ultra common)") ∧
    ((0 : ℚ) < 2.5 ∧ band_from_zipf 0 = "C1–C2 (rare)") :=
  ⟨⟨by norm_num, (c2_band_partition 6).1 (by norm_num)⟩,
   ⟨by norm_num, (c2_band_partition 0).2.2.2.2.1 (by norm_num)⟩⟩

/-- The first component of `grab` on a letter-headed list is a nonempty
letter run, optionally followed by one apostrophe-joined letter run. -/
theorem grab_fst_shape {c : Char} (cs : List Char) (h : isFrLetter c = true) :
    ∃ a b : List Char, a ≠ [] ∧ (∀ x ∈ a, isFrLetter x = true) ∧
      ((grab (c :: cs)).1 = a ∨
        (b ≠ [] ∧ (∀ x ∈ b, isFrLetter x = true) ∧
          (grab (c :: cs)).1 = a ++ apos :: b)) := by
  have hrun : (c :: cs).takeWhile isFrLetter = c :: cs.takeWhile isFrLetter :=
    List.takeWhile_cons_of_pos h
  have hrunmem : ∀ x ∈ (c :: cs).takeWhile isFrLetter, isFrLetter x = true :=
    fun x hx => List.mem_takeWhile_imp hx
  unfold grab
  cases hrest : List.dropWhile isFrLetter (c :: cs) with
  | nil =>
    exact ⟨(c :: cs).takeWhile isFrLetter, [], by simp [hrun], hrunmem, Or.inl rfl⟩
  | cons a t =>
    cases t with
    | nil =>
      exact ⟨(c :: cs).takeWhile isFrLetter, [], by simp [hrun], hrunmem, Or.inl rfl⟩
    | cons d ds =>
      dsimp only
      by_cases had : (a == apos && isFrLetter d) = true
      · rw [if_pos had]
        have ha : a = apos := by
          have := (Bool.and_eq_true _ _).mp had
          exact eq_of_beq this.1
        have hd : isFrLetter d = true := by
          have := (Bool.and_eq_true _ _).mp had
          exact this.2
        refine ⟨(c :: cs).takeWhile isFrLetter, (d :: ds).takeWhile isFrLetter,
          by simp [hrun], hrunmem, Or.inr ⟨?_, fun x hx => List.mem_takeWhile_imp hx, ?_⟩⟩
        · simp [List.takeWhile_cons_of_pos hd]
        · rw [ha]
      · rw [if_neg had]
        exact ⟨(c :: cs).takeWhile isFrLetter, [], by simp [hrun], hrunmem, Or.inl rfl⟩

/-- Every token produced by `frTokensAux` has the letters-plus-optional
single-apostrophe-joint shape. -/
theorem frTokensAux_shape (l : List Char) :
    ∀ t ∈ frTokensAux l, ∃ a b : List Char, a ≠ [] ∧
      (∀ x ∈ a, isFrLetter x = true) ∧
      (t = a ∨ (b ≠ [] ∧ (∀ x ∈ b, isFrLetter x = true) ∧ t = a ++ apos :: b)) := by
  induction l using frTokensAux.induct with
  | case1 => simp [frTokensAux]
  | case2 c cs h ih =>
    intro t ht
    rw [frTokensAux] at ht
    rw [dif_pos h] at ht
    rcases List.mem_cons.mp ht with rfl | hmem
    · exact grab_fst_shape cs h
    · exact ih t hmem
  | case3 c cs h ih =>
    intro t ht
    rw [frTokensAux] at ht
    rw [dif_neg h] at ht
    exact ih t ht

/-- C8: the tokenizer maps text to an ordered token sequence where each
token is a letter run optionally followed by exactly one apostrophe-joined
letter run (so non-letters are never inside a token), the empty input
yields the empty sequence, and the example sentence of the spec yields exactly
the four expected tokens in order. -/
theorem c8_tokenizer :
    fr_tokens "" = [] ∧
    fr_tokens ("j" ++ String.mk [apos] ++ "ai été à Paris") =
      ["j" ++ String.mk [apos] ++ "ai", "été", "à", "Paris"] ∧
    ∀ text t : String, t ∈ fr_tokens text →
      ∃ a b : List Char, a ≠ [] ∧ (∀ x ∈ a, isFrLetter x = true) ∧
        (t.data = a ∨
          (b ≠ [] ∧ (∀ x ∈ b, isFrLetter x = true) ∧ t.data = a ++ apos :: b)) := by
  refine ⟨by simp [fr_tokens, frTokensAux], by simp +decide [fr_tokens, frTokensAux, grab], ?_⟩
  intro text t ht
  unfold fr_tokens at ht
  obtain ⟨l, hl, rfl⟩ := List.mem_map.mp ht
  exact frTokensAux_shape text.data l hl

/-- Witness for `c8_tokenizer`: the token `été` of the example sentence has
the required shape. -/
theorem c8_witness :
    ("été" ∈ fr_tokens ("j" ++ String.mk [apos] ++ "ai été à Paris")) ∧
    ∃ a b : List Char, a ≠ [] ∧ (∀ x ∈ a, isFrLetter x = true) ∧
      (("été" : String).data = a ∨
        (b ≠ [] ∧ (∀ x ∈ b, isFrLetter x = true) ∧
          ("été" : String).data = a ++ apos :: b)) :=
  ⟨by simp +decide [fr_tokens, frTokensAux, grab],
   c8_tokenizer.2.2 ("j" ++ String.mk [apos] ++ "ai été à Paris") "été"
     (by simp +decide [fr_tokens, frTokensAux, grab])⟩

/-- Membership in the sorted candidate list is exactly the filter
condition of `analyze_sentence` lines 72–78. -/
theorem mem_candidateRows (zf : String → ℚ) (kw : List String)
    (rt umin umax : ℚ) (sentence : String) (r : Row) :
    r ∈ candidateRows zf kw rt umin umax sentence ↔
      r ∈ analyzeRows zf kw rt sentence ∧ r.is_known = false ∧
        umin ≤ r.zipf ∧ r.zipf ≤ umax := by
  unfold candidateRows
  rw [List.mem_insertionSort, List.mem_filter]
  simp [Bool.and_eq_true, and_assoc]

/-- C4: a row is a flashcard candidate iff it is an analyzed row that is
not known and whose (stored, rounded) commonality lies in
[useful_min, useful_max]; candidates are sorted ascending by commonality;
and with the 3.0/4.8 bounds a row with commonality 5.0, or a known row,
is never a candidate. -/
theorem c4_candidate_selection (zf : String → ℚ) (sentence : String)
    (kw : List String) (rt umin umax : ℚ) (h : umin ≤ umax) :
    (∀ r : Row, r ∈ candidateRows zf kw rt umin umax sentence ↔
      r ∈ analyzeRows zf kw rt sentence ∧ r.is_known = false ∧
        umin ≤ r.zipf ∧ r.zipf ≤ umax) ∧
    (candidateRows zf kw rt umin umax sentence).Sorted zipfLE ∧
    (∀ r ∈ candidateRows zf kw rt 3 4.8 sentence, r.zipf ≠ 5 ∧ r.is_known = false) := by
  refine ⟨fun r => mem_candidateRows zf kw rt umin umax sentence r,
    List.sorted_insertionSort zipfLE _, fun r hr => ?_⟩
  obtain ⟨-, hknown, -, hle⟩ := (mem_candidateRows zf kw rt 3 4.8 sentence r).mp hr
  refine ⟨fun h5 => ?_, hknown⟩
  rw [h5] at hle
  norm_num at hle

/-- Concrete oracle used by witnesses: `chat` scores 3.5, all else 6. -/
def exZf : String → ℚ := fun s => if s = "chat" then 7/2 else 6

/-- Witness for `c4_candidate_selection` on the sentence `le chat`. -/
theorem c4_witness :
    ((3 : ℚ) ≤ 4.8) ∧
    (candidateRows exZf ["le"] 3 3 4.8 "le chat").Sorted zipfLE ∧
    (∀ r ∈ candidateRows exZf ["le"] 3 3 4.8 "le chat",
      r.zipf ≠ 5 ∧ r.is_known = false) :=
  ⟨by norm_num,
   (c4_candidate_selection exZf "le chat" ["le"] 3 3 4.8 (by norm_num)).2.1,
   (c4_candidate_selection exZf "le chat" ["le"] 3 3 4.8 (by norm_num)).2.2⟩

theorem round3_nonneg {q : ℚ} (h : 0 ≤ q) : 0 ≤ round3 q := by
  unfold round3
  have h1 : (0 : ℤ) ≤ round (1000 * q) := by
    rw [round_eq]
    have : (0 : ℤ) = ⌊(1 / 2 : ℚ)⌋ := by norm_num
    rw [this]
    exact Int.floor_mono (by linarith)
  positivity

theorem round3_le_one {q : ℚ} (h : q ≤ 1) : round3 q ≤ 1 := by
  unfold round3
  have h1 : round (1000 * q) ≤ 1000 := by
    rw [round_eq]
    have h2 : (1000 : ℤ) = ⌊(1000 + 1 / 2 : ℚ)⌋ := by norm_num
    rw [h2]
    exact Int.floor_mono (by linarith)
  rw [div_le_one (by norm_num)]
  exact_mod_cast h1

/-- The share statistics of `analyze_sentence` are rounded fractions
`count / max len 1` with `count ≤ len`, hence lie in [0, 1]. -/
theorem share_bounds (k n : ℕ) (hk : k ≤ n) :
    0 ≤ round3 ((k : ℚ) / max n 1) ∧ round3 ((k : ℚ) / max n 1) ≤ 1 := by
  have hpos : (0 : ℚ) < (max n 1 : ℕ) := by
    have : 1 ≤ max n 1 := le_max_right n 1
    exact_mod_cast lt_of_lt_of_le Nat.zero_lt_one this
  constructor
  · exact round3_nonneg (div_nonneg (by positivity) hpos.le)
  · refine round3_le_one ?_
    rw [div_le_one hpos]
    have : k ≤ max n 1 := le_trans hk (le_max_left n 1)
    exact_mod_cast this

/-- C7: the rare-word share and known-word coverage of `analyze_sentence`
always lie in [0, 1], and on a zero-token sentence the mean and median
commonality are computed over the placeholder `[0.0]` list and are 0. -/
theorem c7_analysis_bounds (zf : String → ℚ) (sentence : String)
    (known_words : List String) (rt umin umax : ℚ) :
    0 ≤ (analyze_sentence zf sentence known_words rt umin umax).stats.share_rare_words ∧
    (analyze_sentence zf sentence known_words rt umin umax).stats.share_rare_words ≤ 1 ∧
    0 ≤ (analyze_sentence zf sentence known_words rt umin umax).stats.known_word_coverage ∧
    (analyze_sentence zf sentence known_words rt umin umax).stats.known_word_coverage ≤ 1 ∧
    (fr_tokens sentence = [] →
      (analyze_sentence zf sentence known_words rt umin umax).stats.mean_zipf = 0 ∧
      (analyze_sentence zf sentence known_words rt umin umax).stats.median_zipf = 0) := by
  refine ⟨?_, ?_, ?_, ?_, ?_⟩
  · exact (share_bounds _ _ (List.countP_le_length _)).1
  · exact (share_bounds _ _ (List.countP_le_length _)).2
  · exact (share_bounds _ _ (List.countP_le_length _)).1
  · exact (share_bounds _ _ (List.countP_le_length _)).2
  · intro h
    have hrows : analyzeRows zf (known_words.map normalize_token) rt sentence = [] := by
      unfold analyzeRows
      rw [h]
      rfl
    constructor
    · show round3 (listMean _) = 0
      rw [hrows]
      norm_num [listMean, round3, round_eq]
    · show round3 (listMedian _) = 0
      rw [hrows]
      norm_num [listMedian, round3, round_eq]

/-- Witness for `c7_analysis_bounds` on the empty sentence. -/
theorem c7_witness :
    (analyze_sentence exZf "" [] 3 3 4.8).stats.mean_zipf = 0 ∧
    (analyze_sentence exZf "" [] 3 3 4.8).stats.median_zipf = 0 :=
  (c7_analysis_bounds exZf "" [] 3 3 4.8).2.2.2.2 (by simp [fr_tokens, frTokensAux])

/-! ## backend/simple_parsing.py -/

/-- ASCII whitespace recognized by Python `str.strip()` / `str.isspace()`
(exotic Unicode spaces are not used by any claim). -/
def isPySpace (c : Char) : Bool :=
  c == ' ' || c == '\t' || c == '\n' || c == '\r' ||
  c == Char.ofNat 11 || c == Char.ofNat 12

/-- Python `str.strip()` on a character list. -/
def pyStrip (s : List Char) : List Char :=
  (((s.dropWhile isPySpace).reverse).dropWhile isPySpace).reverse

/-- Python `str.splitlines()` (accumulator holds the current line
reversed); handles `\n`, `\r\n` and `\r`, and produces no trailing empty
line for a trailing newline. -/
def splitlinesAux : List Char → List Char → List (List Char)
  | [], acc => if acc.isEmpty then [] else [acc.reverse]
  | '\r' :: '\n' :: rest, acc => acc.reverse :: splitlinesAux rest []
  | '\r' :: rest, acc => acc.reverse :: splitlinesAux rest []
  | '\n' :: rest, acc => acc.reverse :: splitlinesAux rest []
  | c :: rest, acc => splitlinesAux rest (c :: acc)

def splitlines (s : List Char) : List (List Char) := splitlinesAux s []

/-- Python `line.split("\t")`: split at every tab, keeping empty cells. -/
def splitTabAux : List Char → List Char → List (List Char)
  | [], acc => [acc.reverse]
  | '\t' :: rest, acc => acc.reverse :: splitTabAux rest []
  | c :: rest, acc => splitTabAux rest (c :: acc)

def splitTab (l : List Char) : List (List Char) := splitTabAux l []

/-- `_HEADER_TOKENS` of simple_parsing.py. -/
def headerTokens : List (List Char) :=
  ["French".data, "English".data, "English Auto".data]

/-- `_strip_header_if_present` (simple_parsing.py lines 5–17), on the
character list of the text: drop the first line when all its non-empty
stripped tab cells are header tokens, re-joining the remaining lines
with `\n` as the Python code does. -/
def stripHeaderIfPresent (text : List Char) : List Char :=
  if text.isEmpty then text
  else
    match hl : splitlines text with
    | [] => text
    | first :: restLines =>
      let parts := (splitTab first).map pyStrip
      let nonEmpty := parts.filter fun p => !p.isEmpty
      if !nonEmpty.isEmpty && nonEmpty.all (fun p => headerTokens.contains p) then
        List.intercalate ['\n'] restLines
      else text

/-- A parsed record (the Python dict `{"A": a, "B": b, "row": str(i)}`;
the row index is kept as the number itself). -/
structure PRow where
  A : List Char
  B : List Char
  row : ℕ
deriving DecidableEq, Repr

/-- The enumerated loop body of `parse_two_column_tsv` (lines 24–32):
skip blank lines, error when a line has fewer than two tab cells,
otherwise record the first two cells stripped. -/
def parseLines : ℕ → List (List Char) → Except (ℕ × List Char) (List PRow)
  | _, [] => .ok []
  | i, line :: rest =>
    if (pyStrip line).isEmpty then parseLines (i + 1) rest
    else if (splitTab line).length < 2 then .error (i, line)
    else
      match parseLines (i + 1) rest with
      | .error e => .error e
      | .ok rows =>
        .ok ({ A := pyStrip ((splitTab line).getD 0 []),
               B := pyStrip ((splitTab line).getD 1 []), row := i } :: rows)

/-- The lines that `parse_two_column_tsv` iterates over: none for falsy
(empty) input, else the split of the header-stripped text. -/
def effectiveLines (text : List Char) : List (List Char) :=
  if text.isEmpty then [] else splitlines (stripHeaderIfPresent text)

/-- `parse_two_column_tsv` (simple_parsing.py lines 19–33).  The
`ValueError` is modelled as `Except.error` carrying the offending line
number and line. -/
def parse_two_column_tsv (text : List Char) : Except (ℕ × List Char) (List PRow) :=
  parseLines 1 (effectiveLines text)

theorem parseLines_error_iff (ls : List (List Char)) : ∀ i : ℕ,
    (∃ e, parseLines i ls = .error e) ↔
      ∃ l ∈ ls, ¬(pyStrip l).isEmpty ∧ (splitTab l).length < 2 := by
  induction ls with
  | nil => intro i; simp [parseLines]
  | cons line rest ih =>
    intro i
    unfold parseLines
    by_cases hblank : (pyStrip line).isEmpty
    · rw [if_pos hblank]
      rw [ih (i + 1)]
      have hempty : pyStrip line = [] := List.isEmpty_iff.mp hblank
      constructor
      · rintro ⟨l, hl, hcond⟩
        exact ⟨l, List.mem_cons_of_mem _ hl, hcond⟩
      · rintro ⟨l, hl, hcond⟩
        rcases List.mem_cons.mp hl with rfl | hl2
        · exact absurd hempty (by simpa using hcond.1)
        · exact ⟨l, hl2, hcond⟩
    · rw [if_neg hblank]
      by_cases hlen : (splitTab line).length < 2
      · rw [if_pos hlen]
        constructor
        · intro _
          exact ⟨line, List.mem_cons_self _ _, by simpa using hblank, hlen⟩
        · intro _
          exact ⟨(i, line), rfl⟩
      · rw [if_neg hlen]
        cases hrec : parseLines (i + 1) rest with
        | error e =>
          constructor
          · intro _
            obtain ⟨l, hl, hcond⟩ := (ih (i + 1)).mp ⟨e, hrec⟩
            exact ⟨l, List.mem_cons_of_mem _ hl, hcond⟩
          · intro _
            exact ⟨e, rfl⟩
        | ok v =>
          constructor
          · rintro ⟨e, he⟩
            cases he
          · rintro ⟨l, hl, hcond⟩
            rcases List.mem_cons.mp hl with rfl | hl2
            · exact absurd hcond.2 hlen
            · obtain ⟨e, he⟩ := (ih (i + 1)).mpr ⟨l, hl2, hcond⟩
              rw [he] at hrec
              cases hrec

theorem parseLines_ok_map (ls : List (List Char)) : ∀ (i : ℕ) (rows : List PRow),
    parseLines i ls = .ok rows →
      rows.map (fun r => (r.A, r.B)) =
        (ls.filter fun l => !(pyStrip l).isEmpty).map
          (fun l => (pyStrip ((splitTab l).getD 0 []), pyStrip ((splitTab l).getD 1 []))) := by
  induction ls with
  | nil =>
    intro i rows h
    simp [parseLines] at h
    subst h
    simp
  | cons line rest ih =>
    intro i rows h
    unfold parseLines at h
    by_cases hblank : (pyStrip line).isEmpty
    · rw [if_pos hblank] at h
      rw [List.filter_cons_of_neg (by simp [hblank])]
      exact ih (i + 1) rows h
    · rw [if_neg hblank] at h
      by_cases hlen : (splitTab line).length < 2
      · rw [if_pos hlen] at h
        cases h
      · rw [if_neg hlen] at h
        cases hrec : parseLines (i + 1) rest with
        | error e =>
          rw [hrec] at h
          cases h
        | ok v =>
          rw [hrec] at h
          cases h
          rw [List.filter_cons_of_pos (by simp [hblank])]
          simp only [List.map_cons]
          rw [ih (i + 1) v hrec]

/-- C9: `parse_two_column_tsv` raises `ValueError` iff some non-blank
effective line (after the optional header strip) has fewer than two tab
cells; on success it returns exactly one record per non-blank effective
line, with the first two cells whitespace-stripped into fields A and B
(blank lines contribute no record). -/
theorem c9_parse_tsv (text : List Char) :
    ((∃ e, parse_two_column_tsv text = .error e) ↔
      ∃ l ∈ effectiveLines text, ¬(pyStrip l).isEmpty ∧ (splitTab l).length < 2) ∧
    (∀ rows, parse_two_column_tsv text = .ok rows →
      rows.map (fun r => (r.A, r.B)) =
        ((effectiveLines text).filter fun l => !(pyStrip l).isEmpty).map
          (fun l => (pyStrip ((splitTab l).getD 0 []), pyStrip ((splitTab l).getD 1 [])))) :=
  ⟨parseLines_error_iff (effectiveLines text) 1,
   fun rows h => parseLines_ok_map (effectiveLines text) 1 rows h⟩

/-- Witness for `c9_parse_tsv`: a concrete headered input parses into one
stripped record per non-blank line. -/
theorem c9_witness :
    parse_two_column_tsv "French\tEnglish\na\tb\n\nx \t y".data =
      .ok [⟨"a".data, "b".data, 1⟩, ⟨"x".data, "y".data, 3⟩] ∧
    ([(⟨"a".data, "b".data, 1⟩ : PRow), ⟨"x".data, "y".data, 3⟩].map fun r => (r.A, r.B)) =
      ((effectiveLines "French\tEnglish\na\tb\n\nx \t y".data).filter fun l =>
        !(pyStrip l).isEmpty).map
        (fun l => (pyStrip ((splitTab l).getD 0 []), pyStrip ((splitTab l).getD 1 []))) :=
  ⟨by rfl, (c9_parse_tsv "French\tEnglish\na\tb\n\nx \t y".data).2 _ (by rfl)⟩

/-! ## backend/formality_checker.py -/

/-- `pat` occurs at the start of `l`. -/
def chStarts : List Char → List Char → Bool
  | [], _ => true
  | _ :: _, [] => false
  | p :: ps, c :: cs => p == c && chStarts ps cs

/-- Python `pat in s`: `pat` occurs as a contiguous substring of `l`. -/
def chHas : List Char → List Char → Bool
  | l, [] => (chStarts [] l)
  | [], _ :: _ => false
  | c :: cs, p :: ps => chStarts (p :: ps) (c :: cs) || chHas cs (p :: ps)

/-- Python `s.endswith(suf)`: `suf` is a suffix of `l`. -/
def chEnds (l suf : List Char) : Bool :=
  l.drop (l.length - suf.length) == suf

/-- `add_formality_markers` (formality_checker.py lines 73–93): append the
marker matching the detected pronoun type unless the phrase already ends
with (informal/formal) or contains (mixed) a marker. -/
def add_formality_markers (english_phrase : String) (pronoun_type : String) : String :=
  if pronoun_type = "informal" then
    if !chEnds english_phrase.data "(informal you)".data then
      english_phrase ++ " (informal you)"
    else english_phrase
  else if pronoun_type = "formal" then
    if !chEnds english_phrase.data "(formal you)".data then
      english_phrase ++ " (formal you)"
    else english_phrase
  else if pronoun_type = "mixed" then
    if !chHas english_phrase.data "(informal you)".data &&
        !chHas english_phrase.data "(formal you)".data then
      english_phrase ++ " (informal you, formal you)"
    else english_phrase
  else english_phrase

theorem chEnds_append (l suf : List Char) : chEnds (l ++ suf) suf = true := by
  unfold chEnds
  rw [List.length_append, Nat.add_sub_cancel, List.drop_left]
  exact beq_self_eq_true _

/-- C10 counterexample: for `pronoun_type = "mixed"` the combined marker
does not contain either single marker, so a second application appends it
again — `add_formality_markers` is not idempotent as claimed. -/
theorem c10_counterexample :
    add_formality_markers (add_formality_markers "" "mixed") "mixed" ≠
      add_formality_markers "" "mixed" := by decide

/-- C10 amended: `add_formality_markers` is idempotent for the
`"informal"` and `"formal"` pronoun types and is the identity for
unrecognized types; for `"mixed"` it leaves a phrase unchanged only if
the phrase already contains one of the single markers (otherwise the
combined marker is appended on every application). -/
theorem c10_markers_idempotent_amended :
    (∀ p : String,
      add_formality_markers (add_formality_markers p "informal") "informal" =
        add_formality_markers p "informal") ∧
    (∀ p : String,
      add_formality_markers (add_formality_markers p "formal") "formal" =
        add_formality_markers p "formal") ∧
    (∀ p : String,
      (chHas p.data "(informal you)".data || chHas p.data "(formal you)".data) = true →
        add_formality_markers p "mixed" = p) ∧
    (∀ p t : String, t ≠ "informal" → t ≠ "formal" → t ≠ "mixed" →
      add_formality_markers p t = p) := by
  refine ⟨?_, ?_, ?_, ?_⟩
  · intro p
    by_cases hE : chEnds p.data "(informal you)".data = true
    · simp [add_formality_markers, hE]
    · have key : chEnds (p ++ " (informal you)").data "(informal you)".data = true := by
        rw [String.data_append]
        have hsp : (" (informal you)" : String).data = [' '] ++ "(informal you)".data := rfl
        rw [hsp, ← List.append_assoc]
        exact chEnds_append _ _
      simp [add_formality_markers, hE]
      intro hfalse
      have key2 := key
      simp at key2
      simp [hfalse] at key2
  · intro p
    by_cases hE : chEnds p.data "(formal you)".data = true
    · simp [add_formality_markers, hE]
    · have key : chEnds (p ++ " (formal you)").data "(formal you)".data = true := by
        rw [String.data_append]
        have hsp : (" (formal you)" : String).data = [' '] ++ "(formal you)".data := rfl
        rw [hsp, ← List.append_assoc]
        exact chEnds_append _ _
      simp [add_formality_markers, hE]
      intro hfalse
      have key2 := key
      simp at key2
      simp [hfalse] at key2
  · intro p h
    have hcond : (!chHas p.data "(informal you)".data &&
        !chHas p.data "(formal you)".data) = false := by
      cases hx : chHas p.data "(informal you)".data <;>
        cases hy : chHas p.data "(formal you)".data <;> simp_all
    simp [add_formality_markers, hcond]
  · intro p t h1 h2 h3
    unfold add_formality_markers
    rw [if_neg h1, if_neg h2, if_neg h3]

/-- Witness for `c10_markers_idempotent_amended` at concrete phrases. -/
theorem c10_witness :
    add_formality_markers "call me (formal you)" "mixed" = "call me (formal you)" ∧
    add_formality_markers "hello" "none" = "hello" :=
  ⟨c10_markers_idempotent_amended.2.2.1 "call me (formal you)" (by decide),
   c10_markers_idempotent_amended.2.2.2 "hello" "none" (by decide) (by decide) (by decide)⟩

/-! ## backend/elevenlabs_tts.py -/

/-- A normalized voice record as produced by `list_voices`
(elevenlabs_tts.py lines 35–47): id, display name, and the sparse label
mapping (modelled as an association list with unique keys). -/
structure Voice where
  voice_id : String
  name : String
  labels : List (String × String)
deriving DecidableEq, Repr

/-- Python `labels.get(k, dflt)` on the association-list model. -/
def dictGet (d : List (String × String)) (k dflt : String) : String :=
  match d.find? (fun kv => kv.1 == k) with
  | some kv => kv.2
  | none => dflt

/-- Python `s.strip()` on strings. -/
def pyStripS (s : String) : String := String.mk (pyStrip s.data)

/-- The normalized explicit language label of a voice:
`str(labels.get("language", "")).strip().lower()` from
`voices_for_language_strict`. -/
def explicitLang (v : Voice) : String :=
  pyLower (pyStripS (dictGet v.labels "language" ""))

/-- The per-voice test of `voices_for_language_strict` (lines 77–87):
an explicit nonempty language label must equal the normalized query;
otherwise any label value may contain it as a substring. -/
def strictMatch (label : String) (v : Voice) : Bool :=
  if explicitLang v ≠ "" then explicitLang v == label
  else v.labels.any fun kv => chHas (pyLower kv.2).data label.data

/-- `voices_for_language_strict` (elevenlabs_tts.py lines 69–88) over a
given voice directory: filter by `strictMatch`, keep (id, name). -/
def voices_for_language_strict (voices : List Voice) (language_label : String) :
    List (String × String) :=
  ((voices.filter (strictMatch (pyLower (pyStripS language_label)))).map
    fun v => (v.voice_id, v.name))

theorem strictMatch_iff (label : String) (v : Voice) :
    strictMatch label v = true ↔
      (explicitLang v ≠ "" ∧ explicitLang v = label) ∨
      (explicitLang v = "" ∧
        ∃ kv ∈ v.labels, chHas (pyLower kv.2).data label.data = true) := by
  unfold strictMatch
  by_cases h : explicitLang v = ""
  · simp [h, List.any_eq_true]
  · simp [h, beq_iff_eq]

/-- C5: the strict lookup returns exactly the voices whose normalized
explicit language label equals the (case-insensitively normalized) query,
plus — only among voices whose explicit language label is absent or blank
— those with some label value containing the query as a substring; and
when no voice matches, the result is empty, never the full list. -/
theorem c5_strict_voice_lookup (voices : List Voice) (language_label : String) :
    (∀ p : String × String,
      p ∈ voices_for_language_strict voices language_label ↔
        ∃ v ∈ voices, (v.voice_id, v.name) = p ∧
          ((explicitLang v ≠ "" ∧ explicitLang v = pyLower (pyStripS language_label)) ∨
           (explicitLang v = "" ∧
             ∃ kv ∈ v.labels,
               chHas (pyLower kv.2).data (pyLower (pyStripS language_label)).data = true))) ∧
    ((∀ v ∈ voices, strictMatch (pyLower (pyStripS language_label)) v = false) →
      voices_for_language_strict voices language_label = []) := by
  constructor
  · intro p
    unfold voices_for_language_strict
    rw [List.mem_map]
    constructor
    · rintro ⟨v, hv, rfl⟩
      rw [List.mem_filter] at hv
      exact ⟨v, hv.1, rfl, (strictMatch_iff _ _).mp hv.2⟩
    · rintro ⟨v, hv, heq, hcond⟩
      exact ⟨v, List.mem_filter.mpr ⟨hv, (strictMatch_iff _ _).mpr hcond⟩, heq⟩
  · intro hnone
    unfold voices_for_language_strict
    have : voices.filter (strictMatch (pyLower (pyStripS language_label))) = [] := by
      rw [List.filter_eq_nil_iff]
      intro v hv
      simp [hnone v hv]
    rw [this]
    rfl

/-- Witness for `c5_strict_voice_lookup`: the "Klingon" example of the spec on
a concrete two-voice directory. -/
theorem c5_witness :
    voices_for_language_strict
      [⟨"id1", "Pierre", [("language", "French")]⟩,
       ⟨"id2", "Anna", [("accent", "parisian")]⟩] "Klingon" = [] :=
  (c5_strict_voice_lookup
      [⟨"id1", "Pierre", [("language", "French")]⟩,
       ⟨"id2", "Anna", [("accent", "parisian")]⟩] "Klingon").2 (by decide)

/-- UTF-8 encoding of one code point (`text.encode("utf-8")`). -/
def utf8Bytes (c : Char) : List ℕ :=
  let n := c.toNat
  if n < 0x80 then [n]
  else if n < 0x800 then [0xC0 + n / 64, 0x80 + n % 64]
  else if n < 0x10000 then
    [0xE0 + n / 4096, 0x80 + (n / 64) % 64, 0x80 + n % 64]
  else
    [0xF0 + n / 262144, 0x80 + (n / 4096) % 64, 0x80 + (n / 64) % 64, 0x80 + n % 64]

/-- UTF-8 bytes of a string. -/
def strUtf8 (s : String) : List ℕ :=
  s.data.foldr (fun c acc => utf8Bytes c ++ acc) []

/-- MD5 per-round left-rotation amounts. -/
def md5S : List ℕ :=
  [7, 12, 17, 22, 7, 12, 17, 22, 7, 12, 17, 22, 7, 12, 17, 22,
   5, 9, 14, 20, 5, 9, 14, 20, 5, 9, 14, 20, 5, 9, 14, 20,
   4, 11, 16, 23, 4, 11, 16, 23, 4, 11, 16, 23, 4, 11, 16, 23,
   6, 10, 15, 21, 6, 10, 15, 21, 6, 10, 15, 21, 6, 10, 15, 21]

/-- MD5 sine-derived round constants `⌊|sin(i+1)| · 2^32⌋`. -/
def md5K : List ℕ :=
  [3614090360, 3905402710, 606105819, 3250441966, 4118548399, 1200080426,
   2821735955, 4249261313, 1770035416, 2336552879, 4294925233, 2304563134,
   1804603682, 4254626195, 2792965006, 1236535329, 4129170786, 3225465664,
   643717713, 3921069994, 3593408605, 38016083, 3634488961, 3889429448,
   568446438, 3275163606, 4107603335, 1163531501, 2850285829, 4243563512,
   1735328473, 2368359562, 4294588738, 2272392833, 1839030562, 4259657740,
   2763975236, 1272893353, 4139469664, 3200236656, 681279174, 3936430074,
   3572445317, 76029189, 3654602809, 3873151461, 530742520, 3299628645,
   4096336452, 1126891415, 2878612391, 4237533241, 1700485571, 2399980690,
   4293915773, 2240044497, 1873313359, 4264355552, 2734768916, 1309151649,
   4149444226, 3174756917, 718787259, 3951481745]

/-- 32-bit left rotation on a machine word modelled as `ℕ` below `2^32`. -/
def rotl32 (x n : ℕ) : ℕ := (x * 2 ^ n + x / 2 ^ (32 - n)) % 2 ^ 32

/-- Little-endian byte decomposition of a number into `n` bytes. -/
def leBytes : ℕ → ℕ → List ℕ
  | 0, _ => []
  | n + 1, x => x % 256 :: leBytes n (x / 256)

/-- The 16 little-endian 32-bit words of a 64-byte chunk. -/
def leWord (chunk : List ℕ) (j : ℕ) : ℕ :=
  chunk.getD (4 * j) 0 + 256 * chunk.getD (4 * j + 1) 0 +
    65536 * chunk.getD (4 * j + 2) 0 + 16777216 * chunk.getD (4 * j + 3) 0

/-- MD5 padding: append `0x80`, zero-pad to 56 mod 64, then the 64-bit
little-endian bit length. -/
def md5Pad (msg : List ℕ) : List ℕ :=
  let k := (56 - (msg.length + 1) % 64 + 64) % 64
  msg ++ [0x80] ++ List.replicate k 0 ++ leBytes 8 ((msg.length * 8) % 2 ^ 64)

/-- One MD5 round step `i` on state (A, B, C, D) for a given chunk. -/
def md5Step (chunk : List ℕ) (st : ℕ × ℕ × ℕ × ℕ) (i : ℕ) : ℕ × ℕ × ℕ × ℕ :=
  let A := st.1
  let B := st.2.1
  let C := st.2.2.1
  let D := st.2.2.2
  let mask := 2 ^ 32 - 1
  let fg :=
    if i < 16 then ((B &&& C) ||| ((B ^^^ mask) &&& D), i)
    else if i < 32 then ((D &&& B) ||| ((D ^^^ mask) &&& C), (5 * i + 1) % 16)
    else if i < 48 then (B ^^^ C ^^^ D, (3 * i + 5) % 16)
    else (C ^^^ (B ||| (D ^^^ mask)), (7 * i) % 16)
  let tmp := (fg.1 + A + md5K.getD i 0 + leWord chunk fg.2) % 2 ^ 32
  (D, (B + rotl32 tmp (md5S.getD i 0)) % 2 ^ 32, B, C)

/-- Process one 64-byte chunk. -/
def md5Block (chunk : List ℕ) (st : ℕ × ℕ × ℕ × ℕ) : ℕ × ℕ × ℕ × ℕ :=
  let r := (List.range 64).foldl (md5Step chunk) st
  ((st.1 + r.1) % 2 ^ 32, (st.2.1 + r.2.1) % 2 ^ 32,
   (st.2.2.1 + r.2.2.1) % 2 ^ 32, (st.2.2.2 + r.2.2.2) % 2 ^ 32)

/-- Process all chunks of a padded message.  The first argument is fuel
making the recursion structural (and hence kernel-evaluable): each step
consumes at least one byte, so fuel = message length always suffices. -/
def md5Chunks : ℕ → List ℕ → ℕ × ℕ × ℕ × ℕ → ℕ × ℕ × ℕ × ℕ
  | _, [], st => st
  | 0, _ :: _, st => st
  | fuel + 1, b :: bs, st =>
    md5Chunks fuel ((b :: bs).drop 64) (md5Block ((b :: bs).take 64) st)

/-- MD5 digest (16 bytes) of a byte list (`hashlib.md5(...).digest()`). -/
def md5 (msg : List ℕ) : List ℕ :=
  let padded := md5Pad msg
  let r := md5Chunks padded.length padded (0x67452301, 0xefcdab89, 0x98badcfe, 0x10325476)
  leBytes 4 r.1 ++ leBytes 4 r.2.1 ++ leBytes 4 r.2.2.1 ++ leBytes 4 r.2.2.2

/-- Lowercase hex character of a nibble. -/
def hexDigit (n : ℕ) : Char :=
  if n < 10 then Char.ofNat (48 + n) else Char.ofNat (87 + n)

/-- Two lowercase hex characters of a byte. -/
def byteHex (b : ℕ) : List Char := [hexDigit (b / 16), hexDigit (b % 16)]

/-- `hashlib.md5(bytes).hexdigest()`. -/
def md5Hexdigest (msg : List ℕ) : String :=
  String.mk ((md5 msg).foldr (fun b acc => byteHex b ++ acc) [])

set_option maxRecDepth 10000 in
example : md5Hexdigest (strUtf8 "") = "d41d8cd98f00b204e9800998ecf8427e" := by decide

set_option maxRecDepth 10000 in
example : md5Hexdigest (strUtf8 "abc") = "900150983cd24fb0d6963f7d28e17f72" := by decide

/-- Decimal fraction digits by long division: remainder `r` over
denominator `d`, stopping at remainder 0 (fuel bounds the 17 significant
digits the Python shortest float repr can produce). -/
def fracDigitsAux : ℕ → ℕ → ℕ → List Char
  | 0, _, _ => []
  | fuel + 1, r, d =>
    if r = 0 then []
    else Char.ofNat (48 + 10 * r / d) :: fracDigitsAux fuel (10 * r % d) d

/-- Python `str(float)` / f-string formatting of a float, modelled on
rationals with terminating decimal expansion (all values appearing in
this code base): integer part, a dot, and the fraction digits, with a
single `0` after the dot for integral values (`1.0`, `0.7`, `1.1` …). -/
def pyFloatRepr (q : ℚ) : String :=
  let sign := if q < 0 then "-" else ""
  let n := q.num.natAbs
  let d := q.den
  let ds := fracDigitsAux 17 (n % d) d
  sign ++ Nat.repr (n / d) ++ "." ++ (if ds.isEmpty then "0" else String.mk ds)

/-- Python `str(bool)` as used by the f-string in `_hash`. -/
def pyBoolRepr (b : Bool) : String := if b then "True" else "False"

/-- The `␟` field separator of `_hash`. -/
def sepS : String := "␟"

/-- The f-string joined by `␟` that `_hash` (elevenlabs_tts.py lines
233–235) feeds to MD5. -/
def hashBase (text voice_id model_id : String)
    (speaking_rate stability similarity_boost style : ℚ)
    (use_speaker_boost : Bool) (output_format : String) : String :=
  text ++ sepS ++ voice_id ++ sepS ++ model_id ++ sepS ++
  pyFloatRepr speaking_rate ++ sepS ++ pyFloatRepr stability ++ sepS ++
  pyFloatRepr similarity_boost ++ sepS ++ pyFloatRepr style ++ sepS ++
  pyBoolRepr use_speaker_boost ++ sepS ++ output_format

/-- `_hash`: the first 12 hex characters of the MD5 of the UTF-8 encoded
field concatenation. -/
def _hash (text voice_id model_id : String)
    (speaking_rate stability similarity_boost style : ℚ)
    (use_speaker_boost : Bool) (output_format : String) : String :=
  String.mk ((md5Hexdigest (strUtf8 (hashBase text voice_id model_id speaking_rate
    stability similarity_boost style use_speaker_boost output_format))).data.take 12)

/-- Result of one `synthesize_text` call over an explicit filesystem
state (the set of existing file paths): the state afterwards, the derived
cache filename and path, and whether the provider was contacted. -/
structure SynthResult where
  fs : List String
  filename : String
  path : String
  providerCalled : Bool
deriving DecidableEq, Repr

/-- `synthesize_text` (elevenlabs_tts.py lines 238–290) with the
filesystem explicit: clamp the speed into [0.7, 1.2], derive the cache
filename from `_hash` over all fields (clamped speed included), and call
the provider only when no file exists at the derived path (the provider
call materializes the file via temp-file plus atomic rename, so the net
state change is the new path). `os.path.join` is modelled as
concatenation with a slash. -/
def synthesize_text (fs : List String) (text voice_id out_dir : String)
    (model_id : String) (stability similarity_boost style : ℚ)
    (use_speaker_boost : Bool) (speaking_rate : ℚ) (output_format : String) :
    SynthResult :=
  let clamped_speed := max 0.7 (min 1.2 speaking_rate)
  let base := _hash text voice_id model_id clamped_speed stability
    similarity_boost style use_speaker_boost output_format
  let fname := base ++ ".mp3"
  let fpath := out_dir ++ "/" ++ fname
  if fpath ∈ fs then ⟨fs, fname, fpath, false⟩
  else ⟨fpath :: fs, fname, fpath, true⟩

/-- C1: with identical fields (any `speaking_rate` included), two
consecutive `synthesize_text` calls derive the same cache filename; the
second call is a pure cache hit performing no provider synthesis; and
whenever the file at the derived path already exists, the call returns
immediately without contacting the provider and without changing the
filesystem.  Hence two identical calls perform at most one synthesis. -/
theorem c1_synthesize_idempotent_cache (fs : List String)
    (text voice_id out_dir model_id : String)
    (stability similarity_boost style : ℚ) (usb : Bool)
    (speaking_rate : ℚ) (fmt : String) :
    (synthesize_text fs text voice_id out_dir model_id stability
        similarity_boost style usb speaking_rate fmt).filename =
      (synthesize_text
        (synthesize_text fs text voice_id out_dir model_id stability
          similarity_boost style usb speaking_rate fmt).fs
        text voice_id out_dir model_id stability
        similarity_boost style usb speaking_rate fmt).filename ∧
    (synthesize_text
        (synthesize_text fs text voice_id out_dir model_id stability
          similarity_boost style usb speaking_rate fmt).fs
        text voice_id out_dir model_id stability
        similarity_boost style usb speaking_rate fmt).providerCalled = false ∧
    ((synthesize_text fs text voice_id out_dir model_id stability
        similarity_boost style usb speaking_rate fmt).path ∈ fs →
      (synthesize_text fs text voice_id out_dir model_id stability
        similarity_boost style usb speaking_rate fmt).providerCalled = false ∧
      (synthesize_text fs text voice_id out_dir model_id stability
        similarity_boost style usb speaking_rate fmt).fs = fs) := by
  unfold synthesize_text
  by_cases hmem :
    out_dir ++ "/" ++
      (_hash text voice_id model_id (max 0.7 (min 1.2 speaking_rate)) stability
        similarity_boost style usb fmt ++ ".mp3") ∈ fs
  · simp [hmem]
  · simp only [if_neg hmem]
    refine ⟨?_, ?_, ?_⟩
    · simp
    · simp
    · intro hp
      exact absurd hp hmem

set_option maxRecDepth 10000 in
/-- Witness for `c1_synthesize_idempotent_cache`: the cache-hit branch at
a concrete request whose artifact already exists. -/
theorem c1_witness :
    (synthesize_text ["media/2857133e0585.mp3"] "bonjour" "v" "media"
      "eleven_multilingual_v2" 0.7 0.7 0 true 1 "mp3_22050_32").providerCalled = false ∧
    (synthesize_text ["media/2857133e0585.mp3"] "bonjour" "v" "media"
      "eleven_multilingual_v2" 0.7 0.7 0 true 1 "mp3_22050_32").fs =
      ["media/2857133e0585.mp3"] := by
  have hc : max (0.7 : ℚ) (min 1.2 1) = 1 := by with_unfolding_all rfl
  have hb : hashBase "bonjour" "v" "eleven_multilingual_v2" 1 0.7 0.7 0 true
      "mp3_22050_32" =
      "bonjour␟v␟eleven_multilingual_v2␟1.0␟0.7␟0.7␟0.0␟True␟mp3_22050_32" := by
    with_unfolding_all rfl
  have hh : _hash "bonjour" "v" "eleven_multilingual_v2" 1 0.7 0.7 0 true
      "mp3_22050_32" = "2857133e0585" := by
    unfold _hash
    rw [hb]
    decide
  have hpath : (synthesize_text ["media/2857133e0585.mp3"] "bonjour" "v" "media"
      "eleven_multilingual_v2" 0.7 0.7 0 true 1 "mp3_22050_32").path =
      "media/2857133e0585.mp3" := by
    simp only [synthesize_text]
    rw [hc, hh]
    decide
  refine c1_synthesize_idempotent_cache ["media/2857133e0585.mp3"] "bonjour" "v"
    "media" "eleven_multilingual_v2" 0.7 0.7 0 true 1 "mp3_22050_32" |>.2.2 ?_
  rw [hpath]
  decide

/-- C6 counterexample: the `␟` separator may itself occur in a field
value, so two requests with different field values (text `a␟b` with voice
`c`, versus text `a` with voice `b␟c`) feed the identical string to MD5
and map to the same cache filename — distinctness fails as claimed. -/
theorem c6_counterexample :
    (("a␟b", "c") ≠ (("a" : String), ("b␟c" : String))) ∧
    _hash "a␟b" "c" "eleven_multilingual_v2" 1 0.7 0.7 0 true "mp3_22050_32" =
      _hash "a" "b␟c" "eleven_multilingual_v2" 1 0.7 0.7 0 true "mp3_22050_32" := by
  constructor
  · decide
  · have hb : hashBase "a␟b" "c" "eleven_multilingual_v2" 1 0.7 0.7 0 true
        "mp3_22050_32" =
        hashBase "a" "b␟c" "eleven_multilingual_v2" 1 0.7 0.7 0 true
        "mp3_22050_32" := by
      with_unfolding_all rfl
    unfold _hash
    rw [hb]

set_option maxRecDepth 10000 in
/-- C6 amended: identical fields always give the same cache filename
(`_hash` and `synthesize_text` are functions), and the concrete
speaking-rate distinctness holds: requests differing only in
`speaking_rate` 1.0 versus 1.1 (both inside [0.7, 1.2], all other fields
at their defaults) derive different cache filenames.  Distinctness does
not hold for arbitrary field differences: the separator can occur inside
a field (see the counterexample), and the digest is truncated. -/
theorem c6_speaking_rate_distinct :
    (synthesize_text [] "bonjour" "v" "media" "eleven_multilingual_v2" 0.7 0.7 0
        true 1 "mp3_22050_32").filename = "2857133e0585.mp3" ∧
    (synthesize_text [] "bonjour" "v" "media" "eleven_multilingual_v2" 0.7 0.7 0
        true 1.1 "mp3_22050_32").filename = "89f1c1a4b47c.mp3" ∧
    (synthesize_text [] "bonjour" "v" "media" "eleven_multilingual_v2" 0.7 0.7 0
        true 1 "mp3_22050_32").filename ≠
      (synthesize_text [] "bonjour" "v" "media" "eleven_multilingual_v2" 0.7 0.7 0
        true 1.1 "mp3_22050_32").filename := by
  have hc1 : max (0.7 : ℚ) (min 1.2 1) = 1 := by with_unfolding_all rfl
  have hc2 : max (0.7 : ℚ) (min 1.2 1.1) = 1.1 := by with_unfolding_all rfl
  have hb1 : hashBase "bonjour" "v" "eleven_multilingual_v2" 1 0.7 0.7 0 true
      "mp3_22050_32" =
      "bonjour␟v␟eleven_multilingual_v2␟1.0␟0.7␟0.7␟0.0␟True␟mp3_22050_32" := by
    with_unfolding_all rfl
  have hb2 : hashBase "bonjour" "v" "eleven_multilingual_v2" 1.1 0.7 0.7 0 true
      "mp3_22050_32" =
      "bonjour␟v␟eleven_multilingual_v2␟1.1␟0.7␟0.7␟0.0␟True␟mp3_22050_32" := by
    with_unfolding_all rfl
  have hh1 : _hash "bonjour" "v" "eleven_multilingual_v2" 1 0.7 0.7 0 true
      "mp3_22050_32" = "2857133e0585" := by
    unfold _hash
    rw [hb1]
    decide
  have hh2 : _hash "bonjour" "v" "eleven_multilingual_v2" 1.1 0.7 0.7 0 true
      "mp3_22050_32" = "89f1c1a4b47c" := by
    unfold _hash
    rw [hb2]
    decide
  have hf1 : (synthesize_text [] "bonjour" "v" "media" "eleven_multilingual_v2"
      0.7 0.7 0 true 1 "mp3_22050_32").filename = "2857133e0585.mp3" := by
    simp only [synthesize_text]
    rw [hc1, hh1]
    decide
  have hf2 : (synthesize_text [] "bonjour" "v" "media" "eleven_multilingual_v2"
      0.7 0.7 0 true 1.1 "mp3_22050_32").filename = "89f1c1a4b47c.mp3" := by
    simp only [synthesize_text]
    rw [hc2, hh2]
    decide
  refine ⟨hf1, hf2, ?_⟩
  rw [hf1, hf2]
  decide

/-! ## backend/simple_flashcards.py -/

/-- Model of a provider error class: the "voice not permitted"
rejection versus every other error class.  The Python loop receives these
as exceptions. -/
inductive SynthErr where
  | voiceNotPermitted
  | other (msg : String)
deriving DecidableEq, Repr

/-- The `{"filename", "path"}` audio info dict. -/
structure AudioInfo where
  filename : String
  path : String
deriving DecidableEq, Repr

/-- The per-row voice failover loop of `build_simple_apkg`
(simple_flashcards.py lines 84–108), parameterized by the outcome
`attempt` of `synthesize_text` for each voice id.  State: current
`audio_info`, current `last_error`; the third result component is the
list of voices attempted (matching the per-try log lines).  The
`except Exception` arm catches every error class, records it as
`last_error` and moves on to the next candidate voice; a successful
attempt with a non-empty path breaks the loop.  No error value is ever
returned to the caller. -/
def tryVoices (attempt : String → Except SynthErr AudioInfo) :
    List String → AudioInfo → Option SynthErr →
    AudioInfo × Option SynthErr × List String
  | [], audio, lastErr => (audio, lastErr, [])
  | v :: vs, audio, lastErr =>
    match attempt v with
    | .ok info =>
      if info.path ≠ "" then (info, lastErr, [v])
      else
        let r := tryVoices attempt vs info lastErr
        (r.1, r.2.1, v :: r.2.2)
    | .error e =>
      let r := tryVoices attempt vs audio (some e)
      (r.1, r.2.1, v :: r.2.2)

/-- Audio synthesis for one row with failover, starting from the empty
`audio_info = {"filename": "", "path": ""}` and `last_error = None`. -/
def rowAudio (attempt : String → Except SynthErr AudioInfo)
    (candidate_voices : List String) : AudioInfo × Option SynthErr × List String :=
  tryVoices attempt candidate_voices ⟨"", ""⟩ none

/-- Concrete attempt outcome used by the C3 theorems: voice `v1` fails
with a non-permission error, every other voice succeeds. -/
def exAttempt : String → Except SynthErr AudioInfo := fun v =>
  if v = "v1" then .error (.other "rate limited")
  else .ok ⟨"ok.mp3", "media/ok.mp3"⟩

/-- C3 counterexample: the first candidate voice fails with an error that
is not a voice-permission rejection, yet the loop does not propagate it —
it retries the next candidate voice and returns the audio of that voice.
Under the claim, an error of any class other than "voice not permitted"
would be propagated immediately and no further voice attempted. -/
theorem c3_counterexample :
    exAttempt "v1" = .error (SynthErr.other "rate limited") ∧
    SynthErr.other "rate limited" ≠ SynthErr.voiceNotPermitted ∧
    (rowAudio exAttempt ["v1", "v2"]).1 = ⟨"ok.mp3", "media/ok.mp3"⟩ ∧
    (rowAudio exAttempt ["v1", "v2"]).2.2 = ["v1", "v2"] :=
  ⟨rfl, by decide, rfl, rfl⟩

theorem tryVoices_all_fail (attempt : String → Except SynthErr AudioInfo) :
    ∀ (vs : List String) (audio : AudioInfo) (lastErr : Option SynthErr),
      (∀ u ∈ vs, ∃ e, attempt u = .error e) →
      (tryVoices attempt vs audio lastErr).1 = audio ∧
      (tryVoices attempt vs audio lastErr).2.2 = vs := by
  intro vs
  induction vs with
  | nil => intro audio lastErr _; exact ⟨rfl, rfl⟩
  | cons v vs ih =>
    intro audio lastErr h
    obtain ⟨e, he⟩ := h v (List.mem_cons_self _ _)
    have hrest := ih audio (some e) fun u hu => h u (List.mem_cons_of_mem _ hu)
    unfold tryVoices
    rw [he]
    exact ⟨hrest.1, by simp [hrest.2]⟩

theorem tryVoices_success (attempt : String → Except SynthErr AudioInfo) :
    ∀ (vs1 : List String) (v : String) (vs2 : List String) (audio : AudioInfo)
      (lastErr : Option SynthErr) (info : AudioInfo),
      (∀ u ∈ vs1, ∃ e, attempt u = .error e) →
      attempt v = .ok info → info.path ≠ "" →
      (tryVoices attempt (vs1 ++ v :: vs2) audio lastErr).1 = info ∧
      (tryVoices attempt (vs1 ++ v :: vs2) audio lastErr).2.2 = vs1 ++ [v] := by
  intro vs1
  induction vs1 with
  | nil =>
    intro v vs2 audio lastErr info _ hok hpath
    unfold tryVoices
    simp only [List.nil_append]
    rw [hok]
    simp [hpath]
  | cons u vs1 ih =>
    intro v vs2 audio lastErr info h hok hpath
    obtain ⟨e, he⟩ := h u (List.mem_cons_self _ _)
    have hrest := ih v vs2 audio (some e)
      info (fun w hw => h w (List.mem_cons_of_mem _ hw)) hok hpath
    unfold tryVoices
    simp only [List.cons_append]
    rw [he]
    exact ⟨hrest.1, by simp [hrest.2]⟩

/-- C3 amended: every failed synthesis attempt — of any error class, a
voice-permission rejection or not — makes the failover loop move to the
next candidate voice; no error is ever propagated to the caller.  The
loop returns the audio of the first voice that succeeds with a non-empty
path, having attempted exactly the failing voices before it; and when
every candidate fails, it returns the empty audio info (the row is left
without audio) with all candidates attempted. -/
theorem c3_failover_retries_all_errors
    (attempt : String → Except SynthErr AudioInfo) :
    (∀ (vs1 : List String) (v : String) (vs2 : List String) (info : AudioInfo),
      (∀ u ∈ vs1, ∃ e, attempt u = .error e) →
      attempt v = .ok info → info.path ≠ "" →
      (rowAudio attempt (vs1 ++ v :: vs2)).1 = info ∧
      (rowAudio attempt (vs1 ++ v :: vs2)).2.2 = vs1 ++ [v]) ∧
    (∀ vs : List String,
      (∀ u ∈ vs, ∃ e, attempt u = .error e) →
      (rowAudio attempt vs).1 = ⟨"", ""⟩ ∧
      (rowAudio attempt vs).2.2 = vs) :=
  ⟨fun vs1 v vs2 info h hok hpath =>
    tryVoices_success attempt vs1 v vs2 ⟨"", ""⟩ none info h hok hpath,
   fun vs h => tryVoices_all_fail attempt vs ⟨"", ""⟩ none h⟩

/-- Witness for `c3_failover_retries_all_errors` on the concrete attempt
function: `v1` fails (non-permission), `v2` succeeds. -/
theorem c3_witness :
    (rowAudio exAttempt (["v1"] ++ "v2" :: [])).1 = ⟨"ok.mp3", "media/ok.mp3"⟩ ∧
    (rowAudio exAttempt (["v1"] ++ "v2" :: [])).2.2 = ["v1"] ++ ["v2"] :=
  (c3_failover_retries_all_errors exAttempt).1 ["v1"] "v2" []
    ⟨"ok.mp3", "media/ok.mp3"⟩
    (by
      intro u hu
      simp only [List.mem_singleton] at hu
      subst hu
      exact ⟨SynthErr.other "rate limited", rfl⟩)
    rfl (by decide)
